import Mathlib

set_option maxHeartbeats 1000000

/-!
Verification development for the lerobot batched/deferred video-encoding
subsystem and the episode-renumbering maintenance script.

The batching core (FrameStore, EpisodeMetadataLog, EncodingQueue,
BatchEncoder, RecordingSession, EncodingManager) is only called, not
defined, by the repository sources, so it is modelled here from the
specification.  The renumbering tool is embedded directly from
custom_scripts/renumber_episodes.py.
-/

/-- Modelled from the spec: per-camera-stream encoding status of a finalized
episode (`pending`, `encoded`, `failed`); the subsystem itself is missing
from the sources, only its call sites appear. -/
inductive Status where
  | pending
  | encoded
  | failed
  deriving DecidableEq, Repr

/-- A frame: one timestep of named, typed values, one value per declared
camera/feature stream (values aligned with the configured stream list). -/
abbrev Frame := List Nat

/-- Modelled from the spec: one EpisodeMetadataLog entry (index, task label,
frame count, encoding status). -/
structure EpisodeRecord where
  index : Nat
  taskLabel : String
  frameCount : Nat
  status : Status
  deriving DecidableEq, Repr

/-- Modelled from the spec: one encoded video artifact per (episode, stream);
`frames` is the decoded frame content, in order. -/
structure VideoArtifact where
  episode : Nat
  stream : String
  frames : List Nat
  deriving DecidableEq, Repr

/-- Modelled from the spec: the state owned by one EncodingManager scope:
the append-only metadata log, the FIFO EncodingQueue of episode indices,
the per-episode raw FrameStore, the produced video artifacts, the next
episode index, and a trace of the batch runs that were triggered (each
entry is the queue contents handed to one BatchEncoder invocation). -/
structure SessionState where
  log : List EpisodeRecord
  queue : List Nat
  frameStore : List (Nat × List Frame)
  artifacts : List VideoArtifact
  nextIndex : Nat
  trace : List (List Nat)
  deriving DecidableEq, Repr

/-- Modelled from the spec: dataset configuration — the batch-encoding
threshold (`batch_encoding_size`) and the declared camera stream names. -/
structure Config where
  threshold : Nat
  streams : List String
  deriving DecidableEq, Repr

/-- Modelled from the spec: the error raised when the metadata append in
`finalize_episode` fails. -/
inductive MetadataWriteError where
  | mk
  deriving DecidableEq, Repr

/-- Modelled from the spec: the artifacts produced for one episode, one per
camera stream; stream `k` receives the episode's frames projected at
position `k`, in capture order. -/
def streamArtifacts (e : Nat) (frames : List Frame) : Nat → List String → List VideoArtifact
  | _, [] => []
  | k, s :: rest => ⟨e, s, frames.map (fun f => f.getD k 0)⟩ :: streamArtifacts e frames (k + 1) rest

/-- Modelled from the spec: FrameStore append of one frame under episode
key `k` (creates the per-episode entry on first write). -/
def addFrame (store : List (Nat × List Frame)) (k : Nat) (f : Frame) : List (Nat × List Frame) :=
  if store.any (fun p => p.1 == k) then
    store.map (fun p => if p.1 == k then (p.1, p.2 ++ [f]) else p)
  else store ++ [(k, [f])]

/-- Modelled from the spec: `write_frame` persists one frame of the currently
open episode into the FrameStore. -/
def writeFrame (st : SessionState) (f : Frame) : SessionState :=
  { st with frameStore := addFrame st.frameStore st.nextIndex f }

/-- Set the encoding status of the log entry with index `e`. -/
def setStatus (log : List EpisodeRecord) (e : Nat) (v : Status) : List EpisodeRecord :=
  log.map (fun r => if r.index == e then { r with status := v } else r)

/-- Raw frames stored for episode `e` (empty if no entry). -/
def lookupFrames (store : List (Nat × List Frame)) (e : Nat) : List Frame :=
  ((store.find? (fun p => p.1 == e)).map (fun p => p.2)).getD []

/-- Modelled from the spec: BatchEncoder handling of a single queued episode.
An episode already `encoded` is skipped (no double-encoding); on failure the
episode is marked `failed` and its raw frames are kept; on success it is
marked `encoded`, one artifact per stream is produced, and its raw
per-frame storage is deleted.  `failOn` injects per-episode failures
(encoder error, I/O error, frame-count mismatch). -/
def encodeOne (cfg : Config) (failOn : Nat → Bool) (st : SessionState) (e : Nat) : SessionState :=
  match st.log.find? (fun r => r.index == e) with
  | none => st
  | some r =>
    if r.status = Status.encoded then st
    else if failOn e then { st with log := setStatus st.log e Status.failed }
    else
      { st with
        log := setStatus st.log e Status.encoded,
        artifacts := st.artifacts ++ streamArtifacts e (lookupFrames st.frameStore e) 0 cfg.streams,
        frameStore := st.frameStore.filter (fun p => p.1 != e) }

/-- Modelled from the spec: one BatchEncoder run over the whole EncodingQueue,
strictly in FIFO order; every queued episode is terminally handled
(encoded or failed) and removed from the queue; the processed queue is
recorded in the trace. -/
def batchEncode (cfg : Config) (failOn : Nat → Bool) (st : SessionState) : SessionState :=
  let st1 := st.queue.foldl (encodeOne cfg failOn) st
  { st1 with queue := [], trace := st1.trace ++ [st.queue] }

/-- Modelled from the spec: `finalize_episode` — appends a `pending` record
to the metadata log, pushes the episode index onto the EncodingQueue, and
triggers a synchronous BatchEncoder run when the queue reaches the
threshold.  If the metadata append fails (`metaFails`), it fails with
`MetadataWriteError` and the state is left unchanged. -/
def finalizeEpisode (cfg : Config) (failOn : Nat → Bool) (metaFails : Bool) (task : String)
    (st : SessionState) : Except MetadataWriteError Unit × SessionState :=
  if metaFails then (Except.error MetadataWriteError.mk, st)
  else
    let idx := st.nextIndex
    let st1 : SessionState :=
      { st with
        log := st.log ++ [⟨idx, task, (lookupFrames st.frameStore idx).length, Status.pending⟩],
        queue := st.queue ++ [idx],
        nextIndex := idx + 1 }
    (Except.ok (), if cfg.threshold ≤ st1.queue.length then batchEncode cfg failOn st1 else st1)

/-- Modelled from the spec: record one episode — write its frames, then
finalize it (the demo loop of the example scripts). -/
def recordEpisode (cfg : Config) (failOn : Nat → Bool) (st : SessionState)
    (inp : String × List Frame) : SessionState :=
  (finalizeEpisode cfg failOn false inp.1 (inp.2.foldl writeFrame st)).2

/-- Modelled from the spec: record a sequence of episodes inside one
EncodingManager scope. -/
def runEpisodes (cfg : Config) (failOn : Nat → Bool) (inputs : List (String × List Frame))
    (st : SessionState) : SessionState :=
  inputs.foldl (recordEpisode cfg failOn) st

/-- Modelled from the spec: EncodingManager scope exit — on every exit path
(normal completion or exception) a non-empty EncodingQueue is drained by a
forced BatchEncoder run. -/
def managerExit (cfg : Config) (failOn : Nat → Bool) (st : SessionState) : SessionState :=
  if st.queue.isEmpty then st else batchEncode cfg failOn st

/-- A fresh session whose first episode will get index `s`. -/
def initState (s : Nat) : SessionState := ⟨[], [], [], [], s, []⟩

/-- Modelled from the spec: a complete recording session — record all
episodes, then leave the EncodingManager scope. -/
def fullRun (cfg : Config) (failOn : Nat → Bool) (s : Nat)
    (inputs : List (String × List Frame)) : SessionState :=
  managerExit cfg failOn (runEpisodes cfg failOn inputs (initState s))

/-- Encoding status of episode `e` in a metadata log. -/
def statusOf (log : List EpisodeRecord) (e : Nat) : Option Status :=
  (log.find? (fun r => r.index == e)).map (fun r => r.status)

/-- Expected log entries for already batch-processed episodes starting at
index `i`: `failed` exactly where a failure was injected, else `encoded`. -/
def logDone (failOn : Nat → Bool) : Nat → List (String × List Frame) → List EpisodeRecord
  | _, [] => []
  | i, inp :: rest =>
    ⟨i, inp.1, inp.2.length, if failOn i then Status.failed else Status.encoded⟩ ::
      logDone failOn (i + 1) rest

/-- Expected log entries for finalized but not yet encoded episodes. -/
def logPending : Nat → List (String × List Frame) → List EpisodeRecord
  | _, [] => []
  | i, inp :: rest => ⟨i, inp.1, inp.2.length, Status.pending⟩ :: logPending (i + 1) rest

/-- The `n` consecutive indices starting at `i`. -/
def queueFrom : Nat → Nat → List Nat
  | _, 0 => []
  | i, Nat.succ n => i :: queueFrom (i + 1) n

/-- Expected retained FrameStore entries of processed episodes: exactly the
failed ones keep their raw frames. -/
def storeFailed (failOn : Nat → Bool) : Nat → List (String × List Frame) → List (Nat × List Frame)
  | _, [] => []
  | i, inp :: rest =>
    (if failOn i then [(i, inp.2)] else []) ++ storeFailed failOn (i + 1) rest

/-- Expected FrameStore entries of queued (not yet encoded) episodes. -/
def storePending : Nat → List (String × List Frame) → List (Nat × List Frame)
  | _, [] => []
  | i, inp :: rest => (i, inp.2) :: storePending (i + 1) rest

/-- Expected artifacts of processed episodes, in episode order: nothing for a
failed episode, one artifact per stream (frames in capture order)
otherwise.  This canonical form does not mention the threshold. -/
def artsDone (streams : List String) (failOn : Nat → Bool) :
    Nat → List (String × List Frame) → List VideoArtifact
  | _, [] => []
  | i, inp :: rest =>
    (if failOn i then [] else streamArtifacts i inp.2 0 streams) ++ artsDone streams failOn (i + 1) rest

/-- Characterization of a reachable session state, up to the queue field:
`done` episodes are processed, `queued` episodes are finalized and await
encoding, `extra` are raw frames of a not yet finalized episode. -/
def ReachX (cfg : Config) (failOn : Nat → Bool) (s : Nat)
    (done queued : List (String × List Frame)) (extra : List (Nat × List Frame))
    (st : SessionState) : Prop :=
  st.log = logDone failOn s done ++ logPending (s + done.length) queued ∧
  st.frameStore = storeFailed failOn s done ++ storePending (s + done.length) queued ++ extra ∧
  st.artifacts = artsDone cfg.streams failOn s done ∧
  st.nextIndex = s + done.length + queued.length ∧
  (∀ p ∈ extra, s + done.length + queued.length ≤ p.1)

/-- Full characterization of a reachable session state, queue included. -/
def Reach (cfg : Config) (failOn : Nat → Bool) (s : Nat)
    (done queued : List (String × List Frame)) (extra : List (Nat × List Frame))
    (st : SessionState) : Prop :=
  ReachX cfg failOn s done queued extra st ∧
  st.queue = queueFrom (s + done.length) queued.length

/-- One record of meta/episodes.jsonl: its `episode_index` plus the rest of
the JSON object, carried opaquely (renumbering must preserve it). -/
structure EpisodeRec where
  episode_index : Nat
  payload : String
  deriving DecidableEq, Repr

/-- meta/info.json: the two fields the script rewrites plus the rest of the
object, carried opaquely. -/
structure InfoRec where
  total_episodes : Nat
  splits_train : String
  payload : String
  deriving DecidableEq, Repr

/-- The on-disk dataset metadata touched by renumber_episodes: the two
metadata files (`none` = missing) and their `.bak` backups. -/
structure MetaFS where
  episodesFile : Option (List EpisodeRec)
  infoFile : Option InfoRec
  backupEpisodes : Option (List EpisodeRec)
  backupInfo : Option InfoRec
  deriving DecidableEq, Repr

/-- Injected I/O failures for the fallible steps of renumber_episodes:
the two backup copies, the episodes.jsonl rewrite, and the info.json
read/update. -/
structure RenumberErrs where
  backupEpisodesFails : Bool
  backupInfoFails : Bool
  writeEpisodesFails : Bool
  writeInfoFails : Bool
  deriving DecidableEq, Repr

/-- The renumbering loop: record `i` gets `episode_index := start + i`,
all other fields preserved. -/
def renumberList (start : Nat) : List EpisodeRec → List EpisodeRec
  | [] => []
  | e :: rest => { e with episode_index := start } :: renumberList (start + 1) rest

/-- `changes_made` of the source: some record's index differs from its
target. -/
def changesNeeded (start : Nat) : List EpisodeRec → Bool
  | [] => false
  | e :: rest => (e.episode_index != start) || changesNeeded (start + 1) rest

/-- Shallow embedding of `renumber_episodes` from
custom_scripts/renumber_episodes.py: existence checks, empty check,
dry-run early return, backups, in-memory renumber, no-change early
return, episodes.jsonl rewrite (restored from backup on failure),
info.json update (both files restored from backup on failure). -/
def renumber_episodes (errs : RenumberErrs) (start : Nat) (dryRun : Bool) (fs : MetaFS) :
    Bool × MetaFS :=
  match fs.episodesFile, fs.infoFile with
  | none, _ => (false, fs)
  | some _, none => (false, fs)
  | some episodes, some info =>
    if episodes.isEmpty then (false, fs)
    else if dryRun then (true, fs)
    else if errs.backupEpisodesFails then (false, fs)
    else
      let fs1 := { fs with backupEpisodes := some episodes }
      if errs.backupInfoFails then (false, fs1)
      else
        let fs2 := { fs1 with backupInfo := some info }
        if changesNeeded start episodes then
          if errs.writeEpisodesFails then
            (false, { fs2 with episodesFile := fs2.backupEpisodes })
          else
            let fs3 := { fs2 with episodesFile := some (renumberList start episodes) }
            if errs.writeInfoFails then
              (false, { fs3 with episodesFile := fs3.backupEpisodes, infoFile := fs3.backupInfo })
            else
              (true, { fs3 with infoFile := some { info with
                  total_episodes := episodes.length,
                  splits_train := "0:" ++ toString episodes.length } })
        else (true, fs2)

/-! ## Helper lemmas about the renumbering tool -/

theorem renumberList_map_payload (start : Nat) (eps : List EpisodeRec) :
    (renumberList start eps).map (fun e => e.payload) = eps.map (fun e => e.payload) := by
  induction eps generalizing start with
  | nil => rfl
  | cons e rest ih => simp [renumberList, ih]

theorem renumberList_getD_index (d : EpisodeRec) :
    ∀ (eps : List EpisodeRec) (start i : Nat), i < eps.length →
      ((renumberList start eps).getD i d).episode_index = start + i := by
  intro eps
  induction eps with
  | nil => intro start i h; exact absurd h (by simp)
  | cons e rest ih =>
      intro start i h
      cases i with
      | zero => simp [renumberList]
      | succ j =>
          have hj : j < rest.length := by simpa using h
          have := ih (start + 1) j hj
          simp only [renumberList, List.getD_cons_succ, this]
          omega

theorem renumberList_length (start : Nat) (eps : List EpisodeRec) :
    (renumberList start eps).length = eps.length := by
  induction eps generalizing start with
  | nil => rfl
  | cons e rest ih => simp [renumberList, ih]

/-! ## C4, C8, C9, C10 -/

/-- Claim C4: if the metadata append performed by finalize fails, the
operation fails with MetadataWriteError, the episode is not finalized (no
record appended, no index enqueued) and the recorded frames remain in the
FrameStore for retry. -/
theorem finalize_metadata_write_failure (cfg : Config) (failOn : Nat → Bool) (task : String)
    (st : SessionState) :
    finalizeEpisode cfg failOn true task st = (Except.error MetadataWriteError.mk, st) ∧
    (finalizeEpisode cfg failOn true task st).2.log = st.log ∧
    (finalizeEpisode cfg failOn true task st).2.queue = st.queue ∧
    (finalizeEpisode cfg failOn true task st).2.frameStore = st.frameStore := by
  refine ⟨rfl, rfl, rfl, rfl⟩

/-- Claim C8 (counterexample): with one episode already numbered 0 but
info.json recording total_episodes = 5, a non-dry run returns True yet
leaves info.json untouched, so total_episodes is not set to the number of
episodes as the claim states. -/
theorem renumber_success_rewrite_cex :
    (renumber_episodes ⟨false, false, false, false⟩ 0 false
        ⟨some [⟨0, "p"⟩], some ⟨5, "0:5", "q"⟩, none, none⟩).1 = true ∧
    (renumber_episodes ⟨false, false, false, false⟩ 0 false
        ⟨some [⟨0, "p"⟩], some ⟨5, "0:5", "q"⟩, none, none⟩).2.infoFile =
      some ⟨5, "0:5", "q"⟩ ∧
    ¬ ((renumber_episodes ⟨false, false, false, false⟩ 0 false
        ⟨some [⟨0, "p"⟩], some ⟨5, "0:5", "q"⟩, none, none⟩).2.infoFile.map
          (fun i => i.total_episodes) = some 1) := by
  refine ⟨rfl, rfl, by decide⟩

/-- Claim C8 (amended): for a non-empty episode list, a non-dry run with all
I/O succeeding returns True; when at least one record's index differs from
its target, the i-th record's episode_index is rewritten to start + i with
all other fields preserved and info.json's total_episodes and splits are
set to the episode count; when the list is already numbered
start .. start + len - 1, both files are left unchanged (info.json is not
rewritten). -/
theorem renumber_success_rewrite (start : Nat) (fs : MetaFS) (eps : List EpisodeRec)
    (info : InfoRec) (h1 : fs.episodesFile = some eps) (h2 : fs.infoFile = some info)
    (hne : eps ≠ []) :
    (renumber_episodes ⟨false, false, false, false⟩ start false fs).1 = true ∧
    (if changesNeeded start eps then
        (renumber_episodes ⟨false, false, false, false⟩ start false fs).2.episodesFile =
            some (renumberList start eps) ∧
        (renumber_episodes ⟨false, false, false, false⟩ start false fs).2.infoFile =
            some { info with total_episodes := eps.length,
                             splits_train := "0:" ++ toString eps.length }
      else
        (renumber_episodes ⟨false, false, false, false⟩ start false fs).2.episodesFile =
            some eps ∧
        (renumber_episodes ⟨false, false, false, false⟩ start false fs).2.infoFile =
            some info) ∧
    (∀ i : Nat, i < eps.length →
      ((renumberList start eps).getD i ⟨0, ""⟩).episode_index = start + i) ∧
    (renumberList start eps).map (fun e => e.payload) = eps.map (fun e => e.payload) := by
  obtain ⟨ef, io, be, bi⟩ := fs
  simp only [MetaFS.episodesFile] at h1
  simp only [MetaFS.infoFile] at h2
  subst h1; subst h2
  have hemp : eps.isEmpty = false := by
    cases eps with
    | nil => exact absurd rfl hne
    | cons a l => rfl
  refine ⟨?_, ?_, fun i hi => renumberList_getD_index ⟨0, ""⟩ eps start i hi,
    renumberList_map_payload start eps⟩
  · simp [renumber_episodes, hemp]
    cases changesNeeded start eps <;> simp
  · cases hch : changesNeeded start eps <;>
      simp [renumber_episodes, hemp, hch]

/-- Claim C9: when changes are needed, a failure while writing episodes.jsonl
restores it from backup, and a failure while updating info.json restores
both files from backup; in both cases the call returns False and the two
on-disk metadata files equal their pre-call content. -/
theorem renumber_write_failure_atomic (start : Nat) (fs : MetaFS) (eps : List EpisodeRec)
    (info : InfoRec) (b : Bool) (h1 : fs.episodesFile = some eps) (h2 : fs.infoFile = some info)
    (hne : eps ≠ []) (hch : changesNeeded start eps = true) :
    ((renumber_episodes ⟨false, false, true, b⟩ start false fs).1 = false ∧
      (renumber_episodes ⟨false, false, true, b⟩ start false fs).2.episodesFile = some eps ∧
      (renumber_episodes ⟨false, false, true, b⟩ start false fs).2.infoFile = some info) ∧
    ((renumber_episodes ⟨false, false, false, true⟩ start false fs).1 = false ∧
      (renumber_episodes ⟨false, false, false, true⟩ start false fs).2.episodesFile = some eps ∧
      (renumber_episodes ⟨false, false, false, true⟩ start false fs).2.infoFile = some info) := by
  obtain ⟨ef, io, be, bi⟩ := fs
  simp only [MetaFS.episodesFile] at h1
  simp only [MetaFS.infoFile] at h2
  subst h1; subst h2
  have hemp : eps.isEmpty = false := by
    cases eps with
    | nil => exact absurd rfl hne
    | cons a l => rfl
  refine ⟨?_, ?_⟩ <;> simp [renumber_episodes, hemp, hch]

/-- Claim C10: a dry run never modifies episodes.jsonl or info.json and
creates no backup files, whatever failures are injected; it returns True
exactly when both metadata files exist and the episode list is non-empty. -/
theorem renumber_dry_run_pure (errs : RenumberErrs) (start : Nat) (fs : MetaFS) :
    (renumber_episodes errs start true fs).2 = fs ∧
    ((renumber_episodes errs start true fs).1 = true ↔
      ∃ eps info, fs.episodesFile = some eps ∧ fs.infoFile = some info ∧ eps ≠ []) := by
  obtain ⟨ef, io, be, bi⟩ := fs
  cases ef with
  | none => simp [renumber_episodes]
  | some eps =>
      cases io with
      | none => simp [renumber_episodes]
      | some info =>
          cases eps with
          | nil => simp [renumber_episodes]
          | cons a l => simp [renumber_episodes, List.isEmpty]

/-! ## Structural lemmas about the expected-shape functions -/

theorem logDone_append (f : Nat → Bool) :
    ∀ (a b : List (String × List Frame)) (i : Nat),
      logDone f i (a ++ b) = logDone f i a ++ logDone f (i + a.length) b := by
  intro a
  induction a with
  | nil => intro b i; simp [logDone]
  | cons x a ih =>
      intro b i
      simp only [List.cons_append, logDone, List.append_eq, List.length_cons, ih]
      rw [show i + (a.length + 1) = i + 1 + a.length by omega]

theorem logPending_append :
    ∀ (a b : List (String × List Frame)) (i : Nat),
      logPending i (a ++ b) = logPending i a ++ logPending (i + a.length) b := by
  intro a
  induction a with
  | nil => intro b i; simp [logPending]
  | cons x a ih =>
      intro b i
      simp only [List.cons_append, logPending, List.append_eq, List.length_cons, ih]
      rw [show i + (a.length + 1) = i + 1 + a.length by omega]

theorem storeFailed_append (f : Nat → Bool) :
    ∀ (a b : List (String × List Frame)) (i : Nat),
      storeFailed f i (a ++ b) = storeFailed f i a ++ storeFailed f (i + a.length) b := by
  intro a
  induction a with
  | nil => intro b i; simp [storeFailed]
  | cons x a ih =>
      intro b i
      simp only [List.cons_append, storeFailed, List.append_eq, List.length_cons, ih,
        List.append_assoc]
      rw [show i + (a.length + 1) = i + 1 + a.length by omega]

theorem storePending_append :
    ∀ (a b : List (String × List Frame)) (i : Nat),
      storePending i (a ++ b) = storePending i a ++ storePending (i + a.length) b := by
  intro a
  induction a with
  | nil => intro b i; simp [storePending]
  | cons x a ih =>
      intro b i
      simp only [List.cons_append, storePending, List.append_eq, List.length_cons, ih]
      rw [show i + (a.length + 1) = i + 1 + a.length by omega]

theorem artsDone_append (streams : List String) (f : Nat → Bool) :
    ∀ (a b : List (String × List Frame)) (i : Nat),
      artsDone streams f i (a ++ b) =
        artsDone streams f i a ++ artsDone streams f (i + a.length) b := by
  intro a
  induction a with
  | nil => intro b i; simp [artsDone]
  | cons x a ih =>
      intro b i
      simp only [List.cons_append, artsDone, List.append_eq, List.length_cons, ih,
        List.append_assoc]
      rw [show i + (a.length + 1) = i + 1 + a.length by omega]

theorem queueFrom_succ : ∀ (n i : Nat), queueFrom i (n + 1) = queueFrom i n ++ [i + n] := by
  intro n
  induction n with
  | zero => intro i; simp [queueFrom]
  | succ m ih =>
      intro i
      show i :: queueFrom (i + 1) (m + 1) = (i :: queueFrom (i + 1) m) ++ [i + (m + 1)]
      rw [ih (i + 1), show i + 1 + m = i + (m + 1) by omega]
      simp

theorem mem_logDone_index (f : Nat → Bool) :
    ∀ (l : List (String × List Frame)) (i : Nat) (r : EpisodeRecord),
      r ∈ logDone f i l → i ≤ r.index ∧ r.index < i + l.length := by
  intro l
  induction l with
  | nil => intro i r h; simp [logDone] at h
  | cons x l ih =>
      intro i r h
      simp only [logDone, List.mem_cons] at h
      rcases h with h | h
      · subst h
        refine ⟨Nat.le.refl, ?_⟩
        show i < i + (x :: l).length
        simp only [List.length_cons]
        omega
      · have := ih (i + 1) r h
        simp only [List.length_cons]
        omega

theorem mem_logPending_index :
    ∀ (l : List (String × List Frame)) (i : Nat) (r : EpisodeRecord),
      r ∈ logPending i l → i ≤ r.index ∧ r.index < i + l.length := by
  intro l
  induction l with
  | nil => intro i r h; simp [logPending] at h
  | cons x l ih =>
      intro i r h
      simp only [logPending, List.mem_cons] at h
      rcases h with h | h
      · subst h
        refine ⟨Nat.le.refl, ?_⟩
        show i < i + (x :: l).length
        simp only [List.length_cons]
        omega
      · have := ih (i + 1) r h
        simp only [List.length_cons]
        omega

theorem mem_storeFailed_key (f : Nat → Bool) :
    ∀ (l : List (String × List Frame)) (i : Nat) (p : Nat × List Frame),
      p ∈ storeFailed f i l → i ≤ p.1 ∧ p.1 < i + l.length := by
  intro l
  induction l with
  | nil => intro i p h; simp [storeFailed] at h
  | cons x l ih =>
      intro i p h
      simp only [storeFailed, List.mem_append] at h
      rcases h with h | h
      · by_cases hf : f i
        · simp only [hf, if_true, List.mem_singleton] at h
          subst h
          refine ⟨Nat.le.refl, ?_⟩
          show i < i + (x :: l).length
          simp only [List.length_cons]
          omega
        · simp [hf] at h
      · have := ih (i + 1) p h
        simp only [List.length_cons]
        omega

theorem mem_storePending_key :
    ∀ (l : List (String × List Frame)) (i : Nat) (p : Nat × List Frame),
      p ∈ storePending i l → i ≤ p.1 ∧ p.1 < i + l.length := by
  intro l
  induction l with
  | nil => intro i p h; simp [storePending] at h
  | cons x l ih =>
      intro i p h
      simp only [storePending, List.mem_cons] at h
      rcases h with h | h
      · subst h
        refine ⟨Nat.le.refl, ?_⟩
        show i < i + (x :: l).length
        simp only [List.length_cons]
        omega
      · have := ih (i + 1) p h
        simp only [List.length_cons]
        omega

theorem logDone_status (f : Nat → Bool) :
    ∀ (l : List (String × List Frame)) (i : Nat) (r : EpisodeRecord),
      r ∈ logDone f i l → r.status ≠ Status.pending := by
  intro l
  induction l with
  | nil => intro i r h; simp [logDone] at h
  | cons x l ih =>
      intro i r h
      simp only [logDone, List.mem_cons] at h
      rcases h with h | h
      · subst h
        by_cases hf : f i <;> simp [hf]
      · exact ih (i + 1) r h

/-! ## Generic list helpers -/

theorem find?_append_of_none {α : Type} (p : α → Bool) :
    ∀ (l1 l2 : List α), (∀ x ∈ l1, p x = false) → (l1 ++ l2).find? p = l2.find? p := by
  intro l1
  induction l1 with
  | nil => intro l2 h; rfl
  | cons a l ih =>
      intro l2 h
      have ha : p a = false := h a (by simp)
      simp only [List.cons_append, List.find?]
      rw [ha]
      exact ih l2 (fun x hx => h x (by simp [hx]))

theorem setStatus_append (a b : List EpisodeRecord) (e : Nat) (v : Status) :
    setStatus (a ++ b) e v = setStatus a e v ++ setStatus b e v := by
  simp [setStatus]

theorem setStatus_of_ne (e : Nat) (v : Status) :
    ∀ (l : List EpisodeRecord), (∀ r ∈ l, r.index ≠ e) → setStatus l e v = l := by
  intro l
  induction l with
  | nil => intro h; rfl
  | cons a l ih =>
      intro h
      have ha : (a.index == e) = false := by
        simp only [beq_eq_false_iff_ne, ne_eq]
        exact h a (by simp)
      simp only [setStatus, List.map_cons, ha, Bool.false_eq_true, if_false]
      have := ih (fun r hr => h r (by simp [hr]))
      simp only [setStatus] at this
      rw [this]

theorem filter_ne_of_ne (e : Nat) :
    ∀ (l : List (Nat × List Frame)), (∀ p ∈ l, p.1 ≠ e) →
      l.filter (fun p => p.1 != e) = l := by
  intro l
  induction l with
  | nil => intro h; rfl
  | cons a l ih =>
      intro h
      have ha : (a.1 != e) = true := by
        simp only [bne_iff_ne, ne_eq]
        exact h a (by simp)
      simp only [List.filter, ha]
      rw [ih (fun p hp => h p (by simp [hp]))]

/-! ## The batch-encoding step preserves the reachable-state characterization -/

theorem encode_stepX (cfg : Config) (failOn : Nat → Bool) (s : Nat)
    (done : List (String × List Frame)) (q0 : String × List Frame)
    (queued : List (String × List Frame)) (extra : List (Nat × List Frame))
    (st : SessionState) (h : ReachX cfg failOn s done (q0 :: queued) extra st) :
    ReachX cfg failOn s (done ++ [q0]) queued extra
      (encodeOne cfg failOn st (s + done.length)) := by
  obtain ⟨hlog, hstore, harts, hnext, hextra⟩ := h
  have hpcons : logPending (s + done.length) (q0 :: queued) =
      ⟨s + done.length, q0.1, q0.2.length, Status.pending⟩ ::
        logPending (s + done.length + 1) queued := rfl
  have hscons : storePending (s + done.length) (q0 :: queued) =
      (s + done.length, q0.2) :: storePending (s + done.length + 1) queued := rfl
  have hDne : ∀ r ∈ logDone failOn s done, r.index ≠ s + done.length := by
    intro r hr
    have := mem_logDone_index failOn done s r hr
    omega
  have hDneb : ∀ r ∈ logDone failOn s done, (r.index == s + done.length) = false := by
    intro r hr
    simp only [beq_eq_false_iff_ne, ne_eq]
    exact hDne r hr
  have hPne : ∀ r ∈ logPending (s + done.length + 1) queued, r.index ≠ s + done.length := by
    intro r hr
    have := mem_logPending_index queued (s + done.length + 1) r hr
    omega
  have hSFne : ∀ p ∈ storeFailed failOn s done, p.1 ≠ s + done.length := by
    intro p hp
    have := mem_storeFailed_key failOn done s p hp
    omega
  have hSPne : ∀ p ∈ storePending (s + done.length + 1) queued, p.1 ≠ s + done.length := by
    intro p hp
    have := mem_storePending_key queued (s + done.length + 1) p hp
    omega
  have hXne : ∀ p ∈ extra, p.1 ≠ s + done.length := by
    intro p hp
    have := hextra p hp
    simp only [List.length_cons] at this
    omega
  have hfind : st.log.find? (fun r => r.index == s + done.length) =
      some ⟨s + done.length, q0.1, q0.2.length, Status.pending⟩ := by
    rw [hlog, find?_append_of_none _ _ _ hDneb, hpcons]
    simp [List.find?]
  have hset : ∀ v, setStatus st.log (s + done.length) v =
      logDone failOn s done ++
        (⟨s + done.length, q0.1, q0.2.length, v⟩ ::
          logPending (s + done.length + 1) queued) := by
    intro v
    rw [hlog, setStatus_append, setStatus_of_ne _ _ _ hDne, hpcons]
    have hcons : setStatus (⟨s + done.length, q0.1, q0.2.length, Status.pending⟩ ::
        logPending (s + done.length + 1) queued) (s + done.length) v =
        (⟨s + done.length, q0.1, q0.2.length, v⟩ : EpisodeRecord) ::
          setStatus (logPending (s + done.length + 1) queued) (s + done.length) v := by
      simp [setStatus]
    rw [hcons, setStatus_of_ne _ _ _ hPne]
  cases hf : failOn (s + done.length) with
  | true =>
      have hres : encodeOne cfg failOn st (s + done.length) =
          { st with log := setStatus st.log (s + done.length) Status.failed } := by
        simp only [encodeOne, hfind]
        simp [hf]
      rw [hres]
      refine ⟨?_, ?_, ?_, ?_, ?_⟩
      · show setStatus st.log (s + done.length) Status.failed = _
        rw [hset, logDone_append]
        simp [logDone, hf]
        rfl
      · show st.frameStore = _
        rw [hstore, hscons, storeFailed_append]
        simp [storeFailed, hf]
        rfl
      · show st.artifacts = _
        rw [harts, artsDone_append]
        simp [artsDone, hf]
      · show st.nextIndex = _
        rw [hnext]
        have h1 : (q0 :: queued).length = queued.length + 1 := rfl
        have h2 : (done ++ [q0]).length = done.length + 1 := by simp
        omega
      · intro p hp
        have := hextra p hp
        have h1 : (q0 :: queued).length = queued.length + 1 := rfl
        have h2 : (done ++ [q0]).length = done.length + 1 := by simp
        omega
  | false =>
      have hframes : lookupFrames st.frameStore (s + done.length) = q0.2 := by
        unfold lookupFrames
        rw [hstore, hscons, List.append_assoc,
          find?_append_of_none _ _ _ (by
            intro p hp
            simp only [beq_eq_false_iff_ne, ne_eq]
            exact hSFne p hp)]
        simp [List.find?]
      have hres : encodeOne cfg failOn st (s + done.length) =
          { st with
            log := setStatus st.log (s + done.length) Status.encoded,
            artifacts := st.artifacts ++
              streamArtifacts (s + done.length) q0.2 0 cfg.streams,
            frameStore := st.frameStore.filter (fun p => p.1 != s + done.length) } := by
        simp only [encodeOne, hfind]
        simp [hf, hframes]
      rw [hres]
      refine ⟨?_, ?_, ?_, ?_, ?_⟩
      · show setStatus st.log (s + done.length) Status.encoded = _
        rw [hset, logDone_append]
        simp [logDone, hf]
        rfl
      · show st.frameStore.filter _ = _
        rw [hstore, hscons, List.filter_append, List.filter_append, List.filter_cons]
        rw [filter_ne_of_ne _ _ hSFne, filter_ne_of_ne _ _ hSPne, filter_ne_of_ne _ _ hXne]
        rw [storeFailed_append]
        simp [storeFailed, hf]
        rfl
      · show st.artifacts ++ _ = _
        rw [harts, artsDone_append]
        simp [artsDone, hf]
      · show st.nextIndex = _
        rw [hnext]
        have h1 : (q0 :: queued).length = queued.length + 1 := rfl
        have h2 : (done ++ [q0]).length = done.length + 1 := by simp
        omega
      · intro p hp
        have := hextra p hp
        have h1 : (q0 :: queued).length = queued.length + 1 := rfl
        have h2 : (done ++ [q0]).length = done.length + 1 := by simp
        omega

theorem flushX (cfg : Config) (failOn : Nat → Bool) (s : Nat) :
    ∀ (queued done : List (String × List Frame)) (extra : List (Nat × List Frame))
      (st : SessionState), ReachX cfg failOn s done queued extra st →
      ReachX cfg failOn s (done ++ queued) [] extra
        (List.foldl (encodeOne cfg failOn) st (queueFrom (s + done.length) queued.length)) := by
  intro queued
  induction queued with
  | nil =>
      intro done extra st h
      simpa [queueFrom] using h
  | cons q0 qs ih =>
      intro done extra st h
      have hstep := encode_stepX cfg failOn s done q0 qs extra st h
      have hrec := ih (done ++ [q0]) extra (encodeOne cfg failOn st (s + done.length)) hstep
      have harr : (done ++ [q0]) ++ qs = done ++ q0 :: qs := by simp
      have hlen : s + (done ++ [q0]).length = s + done.length + 1 := by
        have hl : (done ++ [q0]).length = done.length + 1 := by simp
        omega
      rw [harr, hlen] at hrec
      exact hrec

theorem batchEncode_reach (cfg : Config) (failOn : Nat → Bool) (s : Nat)
    (done queued : List (String × List Frame)) (extra : List (Nat × List Frame))
    (st : SessionState) (h : Reach cfg failOn s done queued extra st) :
    Reach cfg failOn s (done ++ queued) [] extra (batchEncode cfg failOn st) := by
  obtain ⟨hx, hq⟩ := h
  have hflush := flushX cfg failOn s queued done extra st hx
  have hbe : batchEncode cfg failOn st =
      { List.foldl (encodeOne cfg failOn) st (queueFrom (s + done.length) queued.length) with
        queue := [],
        trace := (List.foldl (encodeOne cfg failOn) st
          (queueFrom (s + done.length) queued.length)).trace ++ [st.queue] } := by
    unfold batchEncode
    rw [hq]
  rw [hbe]
  obtain ⟨h1, h2, h3, h4, h5⟩ := hflush
  exact ⟨⟨h1, h2, h3, h4, h5⟩, rfl⟩

/-! ## Writing the frames of one episode into the FrameStore -/

theorem any_key_eq_false (k : Nat) :
    ∀ (store : List (Nat × List Frame)), (∀ p ∈ store, p.1 ≠ k) →
      store.any (fun p => p.1 == k) = false := by
  intro store
  induction store with
  | nil => intro h; rfl
  | cons a l ih =>
      intro h
      simp only [List.any_cons, Bool.or_eq_false_iff]
      refine ⟨?_, ih (fun p hp => h p (by simp [hp]))⟩
      simp only [beq_eq_false_iff_ne, ne_eq]
      exact h a (by simp)

theorem map_addframe_noop (k : Nat) (f : Frame) :
    ∀ (l : List (Nat × List Frame)), (∀ p ∈ l, p.1 ≠ k) →
      l.map (fun p => if p.1 == k then (p.1, p.2 ++ [f]) else p) = l := by
  intro l
  induction l with
  | nil => intro h; rfl
  | cons a t ih =>
      intro h
      simp only [List.map_cons]
      rw [if_neg (by simp only [beq_iff_eq]; exact h a (by simp)),
        ih (fun p hp => h p (by simp [hp]))]

theorem addFrame_absent (store : List (Nat × List Frame)) (k : Nat) (f : Frame)
    (h : ∀ p ∈ store, p.1 ≠ k) : addFrame store k f = store ++ [(k, [f])] := by
  unfold addFrame
  rw [any_key_eq_false k store h]
  simp

theorem addFrame_present (pre : List (Nat × List Frame)) (k : Nat) (acc : List Frame) (f : Frame)
    (h : ∀ p ∈ pre, p.1 ≠ k) :
    addFrame (pre ++ [(k, acc)]) k f = pre ++ [(k, acc ++ [f])] := by
  unfold addFrame
  have hany : (pre ++ [(k, acc)]).any (fun p => p.1 == k) = true := by
    rw [List.any_eq_true]
    exact ⟨(k, acc), by simp, by simp⟩
  rw [hany]
  simp only [if_true]
  rw [List.map_append, map_addframe_noop k f pre h]
  simp

theorem writeFrames_foldl (frames : List Frame) :
    ∀ (st : SessionState) (pre : List (Nat × List Frame)) (acc : List Frame),
      st.frameStore = pre ++ [(st.nextIndex, acc)] → (∀ p ∈ pre, p.1 ≠ st.nextIndex) →
      List.foldl writeFrame st frames =
        { st with frameStore := pre ++ [(st.nextIndex, acc ++ frames)] } := by
  induction frames with
  | nil =>
      intro st pre acc hst hpre
      simp only [List.foldl_nil, List.append_nil]
      rw [← hst]
  | cons f fs ih =>
      intro st pre acc hst hpre
      simp only [List.foldl_cons]
      have hw : writeFrame st f = { st with frameStore := pre ++ [(st.nextIndex, acc ++ [f])] } := by
        unfold writeFrame
        rw [hst, addFrame_present pre st.nextIndex acc f hpre]
      rw [hw]
      have := ih { st with frameStore := pre ++ [(st.nextIndex, acc ++ [f])] } pre (acc ++ [f])
        rfl hpre
      rw [this]
      simp

theorem writeFrames_fresh (st : SessionState) (frames : List Frame)
    (h : ∀ p ∈ st.frameStore, p.1 ≠ st.nextIndex) (hne : frames ≠ []) :
    List.foldl writeFrame st frames =
      { st with frameStore := st.frameStore ++ [(st.nextIndex, frames)] } := by
  cases frames with
  | nil => exact absurd rfl hne
  | cons f fs =>
      simp only [List.foldl_cons]
      have hw : writeFrame st f =
          { st with frameStore := st.frameStore ++ [(st.nextIndex, [f])] } := by
        unfold writeFrame
        rw [addFrame_absent st.frameStore st.nextIndex f h]
      rw [hw]
      have := writeFrames_foldl fs { st with frameStore := st.frameStore ++ [(st.nextIndex, [f])] }
        st.frameStore [f] rfl h
      rw [this]
      simp

theorem record_step (cfg : Config) (failOn : Nat → Bool) (s : Nat)
    (done queued : List (String × List Frame)) (st : SessionState)
    (inp : String × List Frame) (h : Reach cfg failOn s done queued [] st)
    (hne : inp.2 ≠ []) :
    ∃ d q, d ++ q = (done ++ queued) ++ [inp] ∧
      Reach cfg failOn s d q [] (recordEpisode cfg failOn st inp) := by
  obtain ⟨⟨hlog, hstore, harts, hnext, _⟩, hq⟩ := h
  have hkeys : ∀ p ∈ st.frameStore, p.1 ≠ st.nextIndex := by
    intro p hp
    rw [hstore] at hp
    simp only [List.append_nil, List.mem_append] at hp
    have hn := hnext
    rcases hp with hp | hp
    · have := mem_storeFailed_key failOn done s p hp
      omega
    · have := mem_storePending_key queued (s + done.length) p hp
      omega
  have hwf := writeFrames_fresh st inp.2 hkeys hne
  have hcount : lookupFrames (st.frameStore ++ [(st.nextIndex, inp.2)]) st.nextIndex = inp.2 := by
    unfold lookupFrames
    rw [find?_append_of_none _ _ _ (fun p hp => by
      simp only [beq_eq_false_iff_ne, ne_eq]
      exact hkeys p hp)]
    simp [List.find?]
  have hrec : recordEpisode cfg failOn st inp =
      (if cfg.threshold ≤ (st.queue ++ [st.nextIndex]).length then
        batchEncode cfg failOn
          { st with
            log := st.log ++ [⟨st.nextIndex, inp.1, inp.2.length, Status.pending⟩],
            queue := st.queue ++ [st.nextIndex],
            frameStore := st.frameStore ++ [(st.nextIndex, inp.2)],
            nextIndex := st.nextIndex + 1 }
      else
        { st with
          log := st.log ++ [⟨st.nextIndex, inp.1, inp.2.length, Status.pending⟩],
          queue := st.queue ++ [st.nextIndex],
          frameStore := st.frameStore ++ [(st.nextIndex, inp.2)],
          nextIndex := st.nextIndex + 1 }) := by
    show (finalizeEpisode cfg failOn false inp.1 (List.foldl writeFrame st inp.2)).2 = _
    rw [hwf]
    unfold finalizeEpisode
    simp only [hcount]
    rfl
  have hreach1 : Reach cfg failOn s done (queued ++ [inp]) []
      { st with
        log := st.log ++ [⟨st.nextIndex, inp.1, inp.2.length, Status.pending⟩],
        queue := st.queue ++ [st.nextIndex],
        frameStore := st.frameStore ++ [(st.nextIndex, inp.2)],
        nextIndex := st.nextIndex + 1 } := by
    refine ⟨⟨?_, ?_, ?_, ?_, ?_⟩, ?_⟩
    · show st.log ++ [⟨st.nextIndex, inp.1, inp.2.length, Status.pending⟩] = _
      rw [hlog, hnext, logPending_append]
      simp [logPending]
    · show st.frameStore ++ [(st.nextIndex, inp.2)] = _
      rw [hstore, hnext, storePending_append]
      simp [storePending]
    · show st.artifacts = _
      exact harts
    · show st.nextIndex + 1 = _
      rw [hnext]
      have hl : (queued ++ [inp]).length = queued.length + 1 := by simp
      omega
    · intro p hp
      exact absurd hp (List.not_mem_nil p)
    · show st.queue ++ [st.nextIndex] = _
      rw [hq, hnext]
      have hl : (queued ++ [inp]).length = queued.length + 1 := by simp
      rw [hl, queueFrom_succ]
  rw [hrec]
  by_cases hth : cfg.threshold ≤ (st.queue ++ [st.nextIndex]).length
  · rw [if_pos hth]
    refine ⟨done ++ (queued ++ [inp]), [], by simp, ?_⟩
    exact batchEncode_reach cfg failOn s done (queued ++ [inp]) [] _ hreach1
  · rw [if_neg hth]
    exact ⟨done, queued ++ [inp], by simp, hreach1⟩

theorem run_reach (cfg : Config) (failOn : Nat → Bool) (s : Nat) :
    ∀ (inputs : List (String × List Frame)) (done queued : List (String × List Frame))
      (st : SessionState), (∀ p ∈ inputs, p.2 ≠ []) →
      Reach cfg failOn s done queued [] st →
      ∃ d q, d ++ q = (done ++ queued) ++ inputs ∧
        Reach cfg failOn s d q [] (runEpisodes cfg failOn inputs st) := by
  intro inputs
  induction inputs with
  | nil =>
      intro done queued st _ h
      exact ⟨done, queued, by simp, h⟩
  | cons inp rest ih =>
      intro done queued st hne h
      obtain ⟨d1, q1, hdq1, hr1⟩ :=
        record_step cfg failOn s done queued st inp h (hne inp (by simp))
      obtain ⟨d, q, hdq, hr⟩ :=
        ih d1 q1 (recordEpisode cfg failOn st inp) (fun p hp => hne p (by simp [hp])) hr1
      refine ⟨d, q, ?_, hr⟩
      rw [hdq, hdq1]
      simp

theorem init_reach (cfg : Config) (failOn : Nat → Bool) (s : Nat) :
    Reach cfg failOn s [] [] [] (initState s) := by
  refine ⟨⟨rfl, rfl, rfl, by simp [initState], ?_⟩, rfl⟩
  intro p hp
  exact absurd hp (List.not_mem_nil p)

theorem queueFrom_nil_iff (i n : Nat) : queueFrom i n = [] ↔ n = 0 := by
  cases n with
  | zero => simp [queueFrom]
  | succ m => simp [queueFrom]

theorem exit_reach (cfg : Config) (failOn : Nat → Bool) (s : Nat)
    (done queued : List (String × List Frame)) (extra : List (Nat × List Frame))
    (st : SessionState) (h : Reach cfg failOn s done queued extra st) :
    Reach cfg failOn s (done ++ queued) [] extra (managerExit cfg failOn st) := by
  cases queued with
  | nil =>
      have hq := h.2
      have hemp : st.queue.isEmpty = true := by rw [hq]; rfl
      unfold managerExit
      rw [hemp, if_pos rfl]
      simpa using h
  | cons q0 qs =>
      have hq := h.2
      have hemp : st.queue.isEmpty = false := by rw [hq]; rfl
      unfold managerExit
      rw [hemp, if_neg (by simp)]
      exact batchEncode_reach cfg failOn s done (q0 :: qs) extra st h

theorem fullRun_reach (cfg : Config) (failOn : Nat → Bool) (s : Nat)
    (inputs : List (String × List Frame)) (hne : ∀ p ∈ inputs, p.2 ≠ []) :
    Reach cfg failOn s inputs [] [] (fullRun cfg failOn s inputs) := by
  obtain ⟨d, q, hdq, hr⟩ := run_reach cfg failOn s inputs [] [] (initState s) hne
    (init_reach cfg failOn s)
  have := exit_reach cfg failOn s d q [] (runEpisodes cfg failOn inputs (initState s)) hr
  rw [hdq] at this
  simpa using this

theorem reach_exit_log (cfg : Config) (failOn : Nat → Bool) (s : Nat)
    (d q : List (String × List Frame)) (extra : List (Nat × List Frame))
    (st : SessionState) (h : Reach cfg failOn s d q extra st) :
    ∀ r ∈ (managerExit cfg failOn st).log, r.status ≠ Status.pending := by
  have hfin := exit_reach cfg failOn s d q extra st h
  obtain ⟨⟨hlog, _, _, _, _⟩, _⟩ := hfin
  intro r hrmem
  rw [hlog] at hrmem
  simp only [logPending, List.append_nil] at hrmem
  exact logDone_status failOn (d ++ q) s r hrmem

/-- Claim C1: for every threshold N ≥ 1 and every recorded episode sequence,
after the EncodingManager scope exits — normally (take the whole input
list) or through an exception after `k` finalized episodes plus some
frames of an unfinished episode — every finalized episode's status is
`encoded` or `failed`, never `pending`. -/
theorem encoding_manager_exit_no_pending (cfg : Config) (failOn : Nat → Bool) (s k : Nat)
    (inputs : List (String × List Frame)) (openFrames : List Frame)
    (hne : ∀ p ∈ inputs, p.2 ≠ []) (hthr : 1 ≤ cfg.threshold) :
    ∀ r ∈ (managerExit cfg failOn (List.foldl writeFrame
        (runEpisodes cfg failOn (inputs.take k) (initState s)) openFrames)).log,
      r.status = Status.encoded ∨ r.status = Status.failed := by
  have hne' : ∀ p ∈ inputs.take k, p.2 ≠ [] := fun p hp => hne p (List.take_subset k inputs hp)
  obtain ⟨d, q, hdq, hr⟩ := run_reach cfg failOn s (inputs.take k) [] [] (initState s) hne'
    (init_reach cfg failOn s)
  have hnp : ∀ r ∈ (managerExit cfg failOn (List.foldl writeFrame
      (runEpisodes cfg failOn (inputs.take k) (initState s)) openFrames)).log,
      r.status ≠ Status.pending := by
    cases openFrames with
    | nil => exact reach_exit_log cfg failOn s d q [] _ hr
    | cons f fs =>
        obtain ⟨⟨hlog, hstore, harts, hnext, _⟩, hq⟩ := hr
        have hkeys : ∀ p ∈ (runEpisodes cfg failOn (inputs.take k) (initState s)).frameStore,
            p.1 ≠ (runEpisodes cfg failOn (inputs.take k) (initState s)).nextIndex := by
          intro p hp
          rw [hstore] at hp
          simp only [List.append_nil, List.mem_append] at hp
          have hn := hnext
          rcases hp with hp | hp
          · have := mem_storeFailed_key failOn d s p hp
            omega
          · have := mem_storePending_key q (s + d.length) p hp
            omega
        have hwf := writeFrames_fresh _ (f :: fs) hkeys (by simp)
        have hrx : Reach cfg failOn s d q
            [((runEpisodes cfg failOn (inputs.take k) (initState s)).nextIndex, f :: fs)]
            (List.foldl writeFrame (runEpisodes cfg failOn (inputs.take k) (initState s))
              (f :: fs)) := by
          rw [hwf]
          refine ⟨⟨hlog, ?_, harts, hnext, ?_⟩, hq⟩
          · show (runEpisodes cfg failOn (inputs.take k) (initState s)).frameStore ++ _ = _
            rw [hstore]
            simp
          · intro p hp
            simp only [List.mem_singleton] at hp
            subst hp
            show s + d.length + q.length ≤
              (runEpisodes cfg failOn (inputs.take k) (initState s)).nextIndex
            omega
        exact reach_exit_log cfg failOn s d q _ _ hrx
  intro r hrmem
  have := hnp r hrmem
  cases hst : r.status with
  | pending => exact absurd hst this
  | encoded => exact Or.inl rfl
  | failed => exact Or.inr rfl

theorem find?_setStatus_self :
    ∀ (log : List EpisodeRecord) (e : Nat) (v : Status) (r : EpisodeRecord),
      log.find? (fun x => x.index == e) = some r →
      (setStatus log e v).find? (fun x => x.index == e) = some { r with status := v } := by
  intro log
  induction log with
  | nil => intro e v r h; simp [List.find?] at h
  | cons a l ih =>
      intro e v r h
      cases hae : (a.index == e) with
      | true =>
          have ha : a = r := by
            simp only [List.find?, hae, Option.some.injEq] at h
            exact h
          subst ha
          simp [setStatus, List.find?, hae]
      | false =>
          have h' : l.find? (fun x => x.index == e) = some r := by
            simp only [List.find?, hae] at h
            exact h
          have htl := ih e v r h'
          simp only [setStatus, List.map_cons, hae, Bool.false_eq_true, if_false, List.find?]
          simp only [setStatus] at htl
          exact htl

theorem encodeOne_removal_only_encoded (cfg : Config) (failOn : Nat → Bool)
    (st : SessionState) (e : Nat) (p : Nat × List Frame)
    (hp : p ∈ st.frameStore) (hout : p ∉ (encodeOne cfg failOn st e).frameStore) :
    statusOf (encodeOne cfg failOn st e).log p.1 = some Status.encoded := by
  cases hfind : st.log.find? (fun r => r.index == e) with
  | none =>
      simp only [encodeOne, hfind] at hout
      exact absurd hp hout
  | some r =>
      by_cases hst : r.status = Status.encoded
      · simp only [encodeOne, hfind, hst, if_true] at hout
        exact absurd hp hout
      · cases hfail : failOn e with
        | true =>
            simp only [encodeOne, hfind, hst, if_false, hfail, if_true] at hout
            exact absurd hp hout
        | false =>
            simp only [encodeOne, hfind, hst, if_false, hfail, Bool.false_eq_true] at hout ⊢
            have hpe : p.1 = e := by
              by_contra hpne
              apply hout
              rw [List.mem_filter]
              refine ⟨hp, ?_⟩
              simpa [bne_iff_ne] using hpne
            rw [hpe]
            unfold statusOf
            rw [find?_setStatus_self st.log e Status.encoded r hfind]
            rfl

theorem logDone_storeFailed (f : Nat → Bool) :
    ∀ (l : List (String × List Frame)) (i : Nat) (r : EpisodeRecord), r ∈ logDone f i l →
      (r.status = Status.encoded → ∀ p ∈ storeFailed f i l, p.1 ≠ r.index) ∧
      (r.status = Status.failed → ∃ p ∈ storeFailed f i l, p.1 = r.index) := by
  intro l
  induction l with
  | nil => intro i r h; simp [logDone] at h
  | cons x l ih =>
      intro i r h
      simp only [logDone, List.mem_cons] at h
      rcases h with h | h
      · subst h
        cases hfi : f i with
        | true =>
            constructor
            · intro hst
              simp [hfi] at hst
            · intro _
              refine ⟨(i, x.2), ?_, rfl⟩
              simp [storeFailed, hfi]
        | false =>
            constructor
            · intro _ p hp
              simp only [storeFailed, hfi, Bool.false_eq_true, if_false,
                List.nil_append] at hp
              have := mem_storeFailed_key f l (i + 1) p hp
              show p.1 ≠ i
              omega
            · intro hst
              simp [hfi] at hst
      · have htl := ih (i + 1) r h
        have hidx := mem_logDone_index f l (i + 1) r h
        constructor
        · intro hst p hp
          simp only [storeFailed, List.mem_append] at hp
          rcases hp with hp | hp
          · cases hfi : f i with
            | true =>
                simp only [hfi, if_true, List.mem_singleton] at hp
                subst hp
                show i ≠ r.index
                omega
            | false => simp [hfi] at hp
          · exact htl.1 hst p hp
        · intro hst
          obtain ⟨p, hp, hpe⟩ := htl.2 hst
          refine ⟨p, ?_, hpe⟩
          simp only [storeFailed, List.mem_append]
          exact Or.inr hp

/-- Claim C3: raw per-frame storage is deleted only in the step that marks
the episode `encoded`; after a full session, every `failed` episode still
has its raw frames and no raw storage remains for any `encoded` episode. -/
theorem raw_storage_reclaim_discipline (cfg : Config) (failOn : Nat → Bool) (s : Nat)
    (inputs : List (String × List Frame)) (hne : ∀ p ∈ inputs, p.2 ≠ []) :
    (∀ (st : SessionState) (e : Nat) (p : Nat × List Frame),
        p ∈ st.frameStore → p ∉ (encodeOne cfg failOn st e).frameStore →
        statusOf (encodeOne cfg failOn st e).log p.1 = some Status.encoded) ∧
    (∀ r ∈ (fullRun cfg failOn s inputs).log,
      (r.status = Status.encoded →
        ∀ p ∈ (fullRun cfg failOn s inputs).frameStore, p.1 ≠ r.index) ∧
      (r.status = Status.failed →
        ∃ p ∈ (fullRun cfg failOn s inputs).frameStore, p.1 = r.index)) := by
  refine ⟨fun st e p hp hout => encodeOne_removal_only_encoded cfg failOn st e p hp hout, ?_⟩
  obtain ⟨⟨hlog, hstore, _, _, _⟩, _⟩ := fullRun_reach cfg failOn s inputs hne
  intro r hr
  rw [hlog] at hr
  simp only [logPending, List.append_nil] at hr
  rw [hstore]
  simp only [storePending, List.append_nil]
  exact logDone_storeFailed failOn inputs s r hr

/-- Claim C7: the encoded artifacts of a session are a function of the
recorded episodes and the failure pattern only — identical for
batch_encoding_size 1 and any N > 1 — and each artifact's decoded frames
are the episode's captured frames, projected per stream, in capture
order (the canonical form `artsDone` is built with an order-preserving
`List.map` over the captured frame list). -/
theorem batching_preserves_output (streams : List String) (failOn : Nat → Bool) (s N : Nat)
    (inputs : List (String × List Frame)) (hne : ∀ p ∈ inputs, p.2 ≠ []) (hN : 1 < N) :
    (fullRun ⟨1, streams⟩ failOn s inputs).artifacts =
      (fullRun ⟨N, streams⟩ failOn s inputs).artifacts ∧
    (fullRun ⟨N, streams⟩ failOn s inputs).artifacts = artsDone streams failOn s inputs := by
  have h1 := (fullRun_reach ⟨1, streams⟩ failOn s inputs hne).1.2.2.1
  have h2 := (fullRun_reach ⟨N, streams⟩ failOn s inputs hne).1.2.2.1
  exact ⟨by rw [h1, h2], h2⟩

/-- Claim C2: BatchEncoder processes a queue [e1, e2, e3] of pending
episodes strictly in FIFO enqueue order (the trace records exactly that
order), and with a failure injected on e2 the outcome is e1 `encoded`,
e2 `failed`, e3 `encoded` — the failing episode does not abort the rest
of the batch. -/
theorem batch_fifo_failure_isolation (cfg : Config) (failOn : Nat → Bool)
    (e1 e2 e3 : Nat) (t1 t2 t3 : String) (f1 f2 f3 : List Frame)
    (h12 : e1 ≠ e2) (h13 : e1 ≠ e3) (h23 : e2 ≠ e3)
    (hf1 : failOn e1 = false) (hf2 : failOn e2 = true) (hf3 : failOn e3 = false) :
    statusOf (batchEncode cfg failOn
        ⟨[⟨e1, t1, f1.length, Status.pending⟩, ⟨e2, t2, f2.length, Status.pending⟩,
          ⟨e3, t3, f3.length, Status.pending⟩],
         [e1, e2, e3], [(e1, f1), (e2, f2), (e3, f3)], [], e3 + 1, []⟩).log e1 =
      some Status.encoded ∧
    statusOf (batchEncode cfg failOn
        ⟨[⟨e1, t1, f1.length, Status.pending⟩, ⟨e2, t2, f2.length, Status.pending⟩,
          ⟨e3, t3, f3.length, Status.pending⟩],
         [e1, e2, e3], [(e1, f1), (e2, f2), (e3, f3)], [], e3 + 1, []⟩).log e2 =
      some Status.failed ∧
    statusOf (batchEncode cfg failOn
        ⟨[⟨e1, t1, f1.length, Status.pending⟩, ⟨e2, t2, f2.length, Status.pending⟩,
          ⟨e3, t3, f3.length, Status.pending⟩],
         [e1, e2, e3], [(e1, f1), (e2, f2), (e3, f3)], [], e3 + 1, []⟩).log e3 =
      some Status.encoded ∧
    (batchEncode cfg failOn
        ⟨[⟨e1, t1, f1.length, Status.pending⟩, ⟨e2, t2, f2.length, Status.pending⟩,
          ⟨e3, t3, f3.length, Status.pending⟩],
         [e1, e2, e3], [(e1, f1), (e2, f2), (e3, f3)], [], e3 + 1, []⟩).trace =
      [[e1, e2, e3]] := by
  have b12 : (e1 == e2) = false := beq_eq_false_iff_ne.mpr h12
  have b21 : (e2 == e1) = false := beq_eq_false_iff_ne.mpr (Ne.symm h12)
  have b13 : (e1 == e3) = false := beq_eq_false_iff_ne.mpr h13
  have b31 : (e3 == e1) = false := beq_eq_false_iff_ne.mpr (Ne.symm h13)
  have b23 : (e2 == e3) = false := beq_eq_false_iff_ne.mpr h23
  have b32 : (e3 == e2) = false := beq_eq_false_iff_ne.mpr (Ne.symm h23)
  have n21 : e2 ≠ e1 := Ne.symm h12
  have n31 : e3 ≠ e1 := Ne.symm h13
  have n32 : e3 ≠ e2 := Ne.symm h23
  refine ⟨?_, ?_, ?_, ?_⟩ <;>
    simp [batchEncode, encodeOne, setStatus, statusOf, lookupFrames, List.find?,
      hf1, hf2, hf3, b12, b21, b13, b31, b23, b32, h12, h13, h23, n21, n31, n32]

/-- Claim C6: running the BatchEncoder on an episode whose status is already
`encoded` is a no-op: the per-episode step returns the state unchanged, and
a batch run over just that episode leaves the metadata log, the artifacts
(so no second encoding happens) and the raw FrameStore unchanged. -/
theorem batch_encode_idempotent_on_encoded (cfg : Config) (failOn : Nat → Bool)
    (st : SessionState) (e : Nat) (r : EpisodeRecord)
    (hfind : st.log.find? (fun x => x.index == e) = some r)
    (henc : r.status = Status.encoded) :
    encodeOne cfg failOn st e = st ∧
    (batchEncode cfg failOn { st with queue := [e] }).log = st.log ∧
    (batchEncode cfg failOn { st with queue := [e] }).artifacts = st.artifacts ∧
    (batchEncode cfg failOn { st with queue := [e] }).frameStore = st.frameStore := by
  have h1 : encodeOne cfg failOn st e = st := by
    simp only [encodeOne, hfind]
    rw [if_pos henc]
  have h2 : encodeOne cfg failOn { st with queue := [e] } e = { st with queue := [e] } := by
    have hf2 : ({ st with queue := [e] } : SessionState).log.find?
        (fun x => x.index == e) = some r := hfind
    simp only [encodeOne, hf2]
    rw [if_pos henc]
  refine ⟨h1, ?_, ?_, ?_⟩ <;>
    simp [batchEncode, h2]

/-- Claim C5: with threshold 5 and 12 sequentially recorded episodes
(indices 1..12), batch runs are triggered exactly after finalizing
episodes 5 and 10, encoding episodes 1-5 and 6-10; episodes 11 and 12 are
still queued when the scope exits, and the exit drain encodes them in one
final run; moreover immediately after any batch run the queue holds at
most threshold - 1 entries. -/
theorem threshold_batch_trigger_schedule :
    (runEpisodes ⟨5, ["cam"]⟩ (fun _ => false)
        (List.replicate 12 ("t", [[0]])) (initState 1)).trace =
      [[1, 2, 3, 4, 5], [6, 7, 8, 9, 10]] ∧
    (runEpisodes ⟨5, ["cam"]⟩ (fun _ => false)
        (List.replicate 12 ("t", [[0]])) (initState 1)).queue = [11, 12] ∧
    (fullRun ⟨5, ["cam"]⟩ (fun _ => false) 1 (List.replicate 12 ("t", [[0]]))).trace =
      [[1, 2, 3, 4, 5], [6, 7, 8, 9, 10], [11, 12]] ∧
    ∀ (cfg : Config) (failOn : Nat → Bool) (st : SessionState),
      (batchEncode cfg failOn st).queue.length ≤ cfg.threshold - 1 := by
  refine ⟨by decide, by decide, by decide, ?_⟩
  intro cfg failOn st
  show (0 : Nat) ≤ cfg.threshold - 1
  exact Nat.zero_le _

/-! ## Witnesses instantiating the claim theorems at concrete inputs -/

theorem encoding_manager_exit_no_pending_witness :
    (∀ p ∈ [("a", [[1]]), ("b", [[2]]), ("c", [[3]])], p.2 ≠ ([] : List Frame)) ∧
    1 ≤ (Config.mk 2 ["cam"]).threshold ∧
    (∀ r ∈ (managerExit ⟨2, ["cam"]⟩ (fun e => e == 1) (List.foldl writeFrame
        (runEpisodes ⟨2, ["cam"]⟩ (fun e => e == 1)
          (([("a", [[1]]), ("b", [[2]]), ("c", [[3]])]).take 3) (initState 0)) [[9]])).log,
      r.status = Status.encoded ∨ r.status = Status.failed) :=
  ⟨by decide, by decide,
    encoding_manager_exit_no_pending ⟨2, ["cam"]⟩ (fun e => e == 1) 0 3
      [("a", [[1]]), ("b", [[2]]), ("c", [[3]])] [[9]] (by decide) (by decide)⟩

theorem batch_fifo_failure_isolation_witness :
    (1 : Nat) ≠ 2 ∧ (1 : Nat) ≠ 3 ∧ (2 : Nat) ≠ 3 ∧
    ((fun e => e == 2) : Nat → Bool) 1 = false ∧
    ((fun e => e == 2) : Nat → Bool) 2 = true ∧
    ((fun e => e == 2) : Nat → Bool) 3 = false ∧
    (statusOf (batchEncode ⟨5, ["cam"]⟩ (fun e => e == 2)
        ⟨[⟨1, "a", ([[0]] : List Frame).length, Status.pending⟩,
          ⟨2, "b", ([[0]] : List Frame).length, Status.pending⟩,
          ⟨3, "c", ([[0]] : List Frame).length, Status.pending⟩],
         [1, 2, 3], [(1, [[0]]), (2, [[0]]), (3, [[0]])], [], 3 + 1, []⟩).log 1 =
      some Status.encoded ∧
    statusOf (batchEncode ⟨5, ["cam"]⟩ (fun e => e == 2)
        ⟨[⟨1, "a", ([[0]] : List Frame).length, Status.pending⟩,
          ⟨2, "b", ([[0]] : List Frame).length, Status.pending⟩,
          ⟨3, "c", ([[0]] : List Frame).length, Status.pending⟩],
         [1, 2, 3], [(1, [[0]]), (2, [[0]]), (3, [[0]])], [], 3 + 1, []⟩).log 2 =
      some Status.failed ∧
    statusOf (batchEncode ⟨5, ["cam"]⟩ (fun e => e == 2)
        ⟨[⟨1, "a", ([[0]] : List Frame).length, Status.pending⟩,
          ⟨2, "b", ([[0]] : List Frame).length, Status.pending⟩,
          ⟨3, "c", ([[0]] : List Frame).length, Status.pending⟩],
         [1, 2, 3], [(1, [[0]]), (2, [[0]]), (3, [[0]])], [], 3 + 1, []⟩).log 3 =
      some Status.encoded ∧
    (batchEncode ⟨5, ["cam"]⟩ (fun e => e == 2)
        ⟨[⟨1, "a", ([[0]] : List Frame).length, Status.pending⟩,
          ⟨2, "b", ([[0]] : List Frame).length, Status.pending⟩,
          ⟨3, "c", ([[0]] : List Frame).length, Status.pending⟩],
         [1, 2, 3], [(1, [[0]]), (2, [[0]]), (3, [[0]])], [], 3 + 1, []⟩).trace =
      [[1, 2, 3]]) :=
  ⟨by decide, by decide, by decide, by decide, by decide, by decide,
    batch_fifo_failure_isolation ⟨5, ["cam"]⟩ (fun e => e == 2) 1 2 3 "a" "b" "c"
      [[0]] [[0]] [[0]] (by decide) (by decide) (by decide) (by decide) (by decide) (by decide)⟩

theorem raw_storage_reclaim_discipline_witness :
    (∀ p ∈ [("a", [[1]]), ("b", [[2]])], p.2 ≠ ([] : List Frame)) ∧
    ((∀ (st : SessionState) (e : Nat) (p : Nat × List Frame),
        p ∈ st.frameStore →
        p ∉ (encodeOne ⟨2, ["cam"]⟩ (fun e => e == 1) st e).frameStore →
        statusOf (encodeOne ⟨2, ["cam"]⟩ (fun e => e == 1) st e).log p.1 =
          some Status.encoded) ∧
    (∀ r ∈ (fullRun ⟨2, ["cam"]⟩ (fun e => e == 1) 0 [("a", [[1]]), ("b", [[2]])]).log,
      (r.status = Status.encoded →
        ∀ p ∈ (fullRun ⟨2, ["cam"]⟩ (fun e => e == 1) 0
            [("a", [[1]]), ("b", [[2]])]).frameStore, p.1 ≠ r.index) ∧
      (r.status = Status.failed →
        ∃ p ∈ (fullRun ⟨2, ["cam"]⟩ (fun e => e == 1) 0
            [("a", [[1]]), ("b", [[2]])]).frameStore, p.1 = r.index))) :=
  ⟨by decide,
    raw_storage_reclaim_discipline ⟨2, ["cam"]⟩ (fun e => e == 1) 0
      [("a", [[1]]), ("b", [[2]])] (by decide)⟩

theorem batch_encode_idempotent_on_encoded_witness :
    (⟨[⟨0, "t", 1, Status.encoded⟩], [], [(5, [[1]])], [], 1, []⟩ :
        SessionState).log.find? (fun x => x.index == 0) =
      some ⟨0, "t", 1, Status.encoded⟩ ∧
    (⟨0, "t", 1, Status.encoded⟩ : EpisodeRecord).status = Status.encoded ∧
    (encodeOne ⟨1, ["cam"]⟩ (fun _ => false)
        ⟨[⟨0, "t", 1, Status.encoded⟩], [], [(5, [[1]])], [], 1, []⟩ 0 =
      ⟨[⟨0, "t", 1, Status.encoded⟩], [], [(5, [[1]])], [], 1, []⟩ ∧
    (batchEncode ⟨1, ["cam"]⟩ (fun _ => false)
        { (⟨[⟨0, "t", 1, Status.encoded⟩], [], [(5, [[1]])], [], 1, []⟩ : SessionState) with
          queue := [0] }).log =
      (⟨[⟨0, "t", 1, Status.encoded⟩], [], [(5, [[1]])], [], 1, []⟩ : SessionState).log ∧
    (batchEncode ⟨1, ["cam"]⟩ (fun _ => false)
        { (⟨[⟨0, "t", 1, Status.encoded⟩], [], [(5, [[1]])], [], 1, []⟩ : SessionState) with
          queue := [0] }).artifacts =
      (⟨[⟨0, "t", 1, Status.encoded⟩], [], [(5, [[1]])], [], 1, []⟩ : SessionState).artifacts ∧
    (batchEncode ⟨1, ["cam"]⟩ (fun _ => false)
        { (⟨[⟨0, "t", 1, Status.encoded⟩], [], [(5, [[1]])], [], 1, []⟩ : SessionState) with
          queue := [0] }).frameStore =
      (⟨[⟨0, "t", 1, Status.encoded⟩], [], [(5, [[1]])], [], 1, []⟩ : SessionState).frameStore) :=
  ⟨by decide, rfl,
    batch_encode_idempotent_on_encoded ⟨1, ["cam"]⟩ (fun _ => false)
      ⟨[⟨0, "t", 1, Status.encoded⟩], [], [(5, [[1]])], [], 1, []⟩ 0
      ⟨0, "t", 1, Status.encoded⟩ (by decide) rfl⟩

theorem batching_preserves_output_witness :
    (∀ p ∈ [("a", [[1], [2]]), ("b", [[3]])], p.2 ≠ ([] : List Frame)) ∧
    1 < (3 : Nat) ∧
    ((fullRun ⟨1, ["x", "y"]⟩ (fun e => e == 1) 0 [("a", [[1], [2]]), ("b", [[3]])]).artifacts =
      (fullRun ⟨3, ["x", "y"]⟩ (fun e => e == 1) 0 [("a", [[1], [2]]), ("b", [[3]])]).artifacts ∧
    (fullRun ⟨3, ["x", "y"]⟩ (fun e => e == 1) 0 [("a", [[1], [2]]), ("b", [[3]])]).artifacts =
      artsDone ["x", "y"] (fun e => e == 1) 0 [("a", [[1], [2]]), ("b", [[3]])]) :=
  ⟨by decide, by decide,
    batching_preserves_output ["x", "y"] (fun e => e == 1) 0 3
      [("a", [[1], [2]]), ("b", [[3]])] (by decide) (by decide)⟩

theorem renumber_success_rewrite_witness :
    (⟨some [⟨7, "p"⟩, ⟨9, "r"⟩], some ⟨5, "0:5", "q"⟩, none, none⟩ : MetaFS).episodesFile =
      some [⟨7, "p"⟩, ⟨9, "r"⟩] ∧
    (⟨some [⟨7, "p"⟩, ⟨9, "r"⟩], some ⟨5, "0:5", "q"⟩, none, none⟩ : MetaFS).infoFile =
      some ⟨5, "0:5", "q"⟩ ∧
    ([⟨7, "p"⟩, ⟨9, "r"⟩] : List EpisodeRec) ≠ [] ∧
    ((renumber_episodes ⟨false, false, false, false⟩ 3 false
        ⟨some [⟨7, "p"⟩, ⟨9, "r"⟩], some ⟨5, "0:5", "q"⟩, none, none⟩).1 = true ∧
    (if changesNeeded 3 [⟨7, "p"⟩, ⟨9, "r"⟩] then
        (renumber_episodes ⟨false, false, false, false⟩ 3 false
            ⟨some [⟨7, "p"⟩, ⟨9, "r"⟩], some ⟨5, "0:5", "q"⟩, none, none⟩).2.episodesFile =
          some (renumberList 3 [⟨7, "p"⟩, ⟨9, "r"⟩]) ∧
        (renumber_episodes ⟨false, false, false, false⟩ 3 false
            ⟨some [⟨7, "p"⟩, ⟨9, "r"⟩], some ⟨5, "0:5", "q"⟩, none, none⟩).2.infoFile =
          some { (⟨5, "0:5", "q"⟩ : InfoRec) with
                 total_episodes := ([⟨7, "p"⟩, ⟨9, "r"⟩] : List EpisodeRec).length,
                 splits_train :=
                   "0:" ++ toString ([⟨7, "p"⟩, ⟨9, "r"⟩] : List EpisodeRec).length }
      else
        (renumber_episodes ⟨false, false, false, false⟩ 3 false
            ⟨some [⟨7, "p"⟩, ⟨9, "r"⟩], some ⟨5, "0:5", "q"⟩, none, none⟩).2.episodesFile =
          some [⟨7, "p"⟩, ⟨9, "r"⟩] ∧
        (renumber_episodes ⟨false, false, false, false⟩ 3 false
            ⟨some [⟨7, "p"⟩, ⟨9, "r"⟩], some ⟨5, "0:5", "q"⟩, none, none⟩).2.infoFile =
          some ⟨5, "0:5", "q"⟩) ∧
    (∀ i : Nat, i < ([⟨7, "p"⟩, ⟨9, "r"⟩] : List EpisodeRec).length →
      ((renumberList 3 [⟨7, "p"⟩, ⟨9, "r"⟩]).getD i ⟨0, ""⟩).episode_index = 3 + i) ∧
    (renumberList 3 [⟨7, "p"⟩, ⟨9, "r"⟩]).map (fun e => e.payload) =
      ([⟨7, "p"⟩, ⟨9, "r"⟩] : List EpisodeRec).map (fun e => e.payload)) :=
  ⟨rfl, rfl, by decide,
    renumber_success_rewrite 3 ⟨some [⟨7, "p"⟩, ⟨9, "r"⟩], some ⟨5, "0:5", "q"⟩, none, none⟩
      [⟨7, "p"⟩, ⟨9, "r"⟩] ⟨5, "0:5", "q"⟩ rfl rfl (by decide)⟩

theorem renumber_write_failure_atomic_witness :
    (⟨some [⟨7, "p"⟩, ⟨9, "r"⟩], some ⟨5, "0:5", "q"⟩, none, none⟩ : MetaFS).episodesFile =
      some [⟨7, "p"⟩, ⟨9, "r"⟩] ∧
    (⟨some [⟨7, "p"⟩, ⟨9, "r"⟩], some ⟨5, "0:5", "q"⟩, none, none⟩ : MetaFS).infoFile =
      some ⟨5, "0:5", "q"⟩ ∧
    ([⟨7, "p"⟩, ⟨9, "r"⟩] : List EpisodeRec) ≠ [] ∧
    changesNeeded 0 [⟨7, "p"⟩, ⟨9, "r"⟩] = true ∧
    (((renumber_episodes ⟨false, false, true, false⟩ 0 false
        ⟨some [⟨7, "p"⟩, ⟨9, "r"⟩], some ⟨5, "0:5", "q"⟩, none, none⟩).1 = false ∧
      (renumber_episodes ⟨false, false, true, false⟩ 0 false
        ⟨some [⟨7, "p"⟩, ⟨9, "r"⟩], some ⟨5, "0:5", "q"⟩, none, none⟩).2.episodesFile =
        some [⟨7, "p"⟩, ⟨9, "r"⟩] ∧
      (renumber_episodes ⟨false, false, true, false⟩ 0 false
        ⟨some [⟨7, "p"⟩, ⟨9, "r"⟩], some ⟨5, "0:5", "q"⟩, none, none⟩).2.infoFile =
        some ⟨5, "0:5", "q"⟩) ∧
    ((renumber_episodes ⟨false, false, false, true⟩ 0 false
        ⟨some [⟨7, "p"⟩, ⟨9, "r"⟩], some ⟨5, "0:5", "q"⟩, none, none⟩).1 = false ∧
      (renumber_episodes ⟨false, false, false, true⟩ 0 false
        ⟨some [⟨7, "p"⟩, ⟨9, "r"⟩], some ⟨5, "0:5", "q"⟩, none, none⟩).2.episodesFile =
        some [⟨7, "p"⟩, ⟨9, "r"⟩] ∧
      (renumber_episodes ⟨false, false, false, true⟩ 0 false
        ⟨some [⟨7, "p"⟩, ⟨9, "r"⟩], some ⟨5, "0:5", "q"⟩, none, none⟩).2.infoFile =
        some ⟨5, "0:5", "q"⟩)) :=
  ⟨rfl, rfl, by decide, by decide,
    renumber_write_failure_atomic 0 ⟨some [⟨7, "p"⟩, ⟨9, "r"⟩], some ⟨5, "0:5", "q"⟩, none, none⟩
      [⟨7, "p"⟩, ⟨9, "r"⟩] ⟨5, "0:5", "q"⟩ false rfl rfl (by decide) (by decide)⟩
